import Mathlib

/-!
Verification of the candidate-selection and scoring pipeline of the
agenda-bdx image-enrichment scripts (scripts/enrich-images.mjs, two
successive generations of the same component).

The JavaScript is shallowly embedded: strings are Lean `String`s
(operated on through their character lists), JS `undefined`/`null`
string fields are `Option String` with JS truthiness made explicit,
network calls are oracle parameters (`Except Unit _` to model a
rejected promise), and the selection orchestrator additionally returns
the list of network sources it actually queried.
-/

set_option maxRecDepth 10000

/-! ## JS value helpers -/

/-- JS `a || b` on a possibly-absent string field: an absent field and
the empty string are falsy. -/
def jsOr (a : Option String) (b : String) : String :=
  match a with
  | some s => if s = "" then b else s
  | none => b

/-- JS `String(x || "")` for an optional string field. -/
def jsStr (a : Option String) : String :=
  jsOr a ""

/-- Whitespace recognized by the embedding of JS `trim` / `\s`. -/
def isWsChar (c : Char) : Bool :=
  c = ' ' ∨ c = '\t' ∨ c = '\n' ∨ c = '\r'

/-- JS `String.prototype.trim`: drop leading and trailing whitespace. -/
def jsTrim (s : String) : String :=
  ⟨((s.data.dropWhile isWsChar).reverse.dropWhile isWsChar).reverse⟩

/-- A JS value that can sit in the `url` position of a candidate: the
upstream-image extraction can (faithfully to the JS) produce a whole
object there, not only a string. -/
inductive JVal where
  | str (s : String)
  | obj (url href : Option String)
  deriving DecidableEq, Repr

/-- JS truthiness for a `JVal`: objects are truthy, a string is truthy
iff non-empty. -/
def jvTruthy : JVal → Bool
  | JVal.str s => s ≠ ""
  | JVal.obj _ _ => true

/-! ## Text Normalizer (`normalizeText`, `tokens`, `overlapScore`) -/

/-- Embedding of `toLowerCase` + `normalize("NFD")` +
`replace(/\p{Diacritic}/gu, "")` on one character, modelled for ASCII
and the accented Latin letters relevant to the French data (letters
with no canonical decomposition are left unchanged, exactly as in JS;
they are then treated as separators by the `[^a-z0-9]` replacement). -/
def foldChar (c : Char) : Char :=
  if 'A' ≤ c ∧ c ≤ 'Z' then Char.ofNat (c.toNat + 32)
  else if c = 'à' ∨ c = 'â' ∨ c = 'ä' ∨ c = 'á' ∨ c = 'ã' ∨ c = 'å' then 'a'
  else if c = 'À' ∨ c = 'Â' ∨ c = 'Ä' ∨ c = 'Á' ∨ c = 'Ã' ∨ c = 'Å' then 'a'
  else if c = 'é' ∨ c = 'è' ∨ c = 'ê' ∨ c = 'ë' then 'e'
  else if c = 'É' ∨ c = 'È' ∨ c = 'Ê' ∨ c = 'Ë' then 'e'
  else if c = 'î' ∨ c = 'ï' ∨ c = 'í' ∨ c = 'ì' then 'i'
  else if c = 'Î' ∨ c = 'Ï' ∨ c = 'Í' ∨ c = 'Ì' then 'i'
  else if c = 'ô' ∨ c = 'ö' ∨ c = 'ó' ∨ c = 'ò' ∨ c = 'õ' then 'o'
  else if c = 'Ô' ∨ c = 'Ö' ∨ c = 'Ó' ∨ c = 'Ò' ∨ c = 'Õ' then 'o'
  else if c = 'ù' ∨ c = 'û' ∨ c = 'ü' ∨ c = 'ú' then 'u'
  else if c = 'Ù' ∨ c = 'Û' ∨ c = 'Ü' ∨ c = 'Ú' then 'u'
  else if c = 'ç' ∨ c = 'Ç' then 'c'
  else if c = 'ÿ' ∨ c = 'ý' ∨ c = 'Ý' then 'y'
  else if c = 'ñ' ∨ c = 'Ñ' then 'n'
  else c

/-- Character class `[a-z0-9]` of the normalizer. -/
def isAlnumChar (c : Char) : Bool :=
  ('a' ≤ c ∧ c ≤ 'z') ∨ ('0' ≤ c ∧ c ≤ '9')

/-- Embedding of `replace(/[^a-z0-9]+/g, " ")`: each maximal run of
non-alphanumeric characters becomes a single space.  The boolean flag
records whether the previous character belonged to such a run. -/
def normRunsAux : Bool → List Char → List Char
  | _, [] => []
  | prevSep, c :: rest =>
    if isAlnumChar c then c :: normRunsAux false rest
    else if prevSep then normRunsAux true rest
    else ' ' :: normRunsAux true rest

/-- Drop leading and trailing spaces (after run-collapsing the only
whitespace left is `' '`). -/
def trimSpacesL (l : List Char) : List Char :=
  ((l.dropWhile (· = ' ')).reverse.dropWhile (· = ' ')).reverse

/-- Embedding of `normalizeText` (both script generations): lowercase,
strip diacritics, collapse `[^a-z0-9]` runs to single spaces, trim. -/
def normalizeText (s : String) : String :=
  ⟨trimSpacesL (normRunsAux false (s.data.map foldChar))⟩

/-- Split a character list on single spaces (embedding of
`split(" ")`). -/
def splitOnSpaceAux : List Char → List Char → List (List Char)
  | [], acc => [acc.reverse]
  | c :: rest, acc =>
    if c = ' ' then acc.reverse :: splitOnSpaceAux rest []
    else splitOnSpaceAux rest (c :: acc)

/-- Embedding of `tokens`: normalize, split on spaces, drop empty
pieces and tokens shorter than 3 characters. -/
def tokens (s : String) : List String :=
  (((splitOnSpaceAux (normalizeText s).data []).map fun l => (⟨l⟩ : String)).filter
      fun t => t ≠ "").filter fun t => t.length ≥ 3

/-- Embedding of `overlapScore`: for each entry of `aTokens` (a list,
traversed with multiplicity) add 1 when it occurs in the token set of
`bText`. -/
def overlapScore (aTokens : List String) (bText : String) : Nat :=
  aTokens.countP fun t => (tokens bText).contains t

/-- The quantity named by the specification for `overlapScore`: the
cardinality of the intersection of the *set* of query tokens with the
token set of the candidate text. -/
def interCardSpec (aTokens : List String) (bText : String) : Nat :=
  (aTokens.dedup.filter fun t => (tokens bText).contains t).length

theorem overlapScore_eq_filter (aTokens : List String) (bText : String) :
    overlapScore aTokens bText =
      (aTokens.filter fun t => (tokens bText).contains t).length := by
  simp [overlapScore, List.countP_eq_length_filter]

/-- C6 counterexample: with a duplicated query token the code counts it
twice, while the set-intersection cardinality demanded by the claim is
1; hence `overlapScore` is frequency-weighted in the query list. -/
theorem claim_C6_counterexample :
    overlapScore ["abc", "abc"] "abc" = 2 ∧
      interCardSpec ["abc", "abc"] "abc" = 1 := by
  decide

/-- C6 (amended): `overlapScore(queryTokens, candidateText)` equals the
number of entries of the query-token list (counted with multiplicity)
that occur in the token set of `candidateText`; it is independent of
the order of the query tokens, returns 0 whenever the two token sets
are disjoint, and agrees with the set-intersection cardinality exactly
when the query tokens are pairwise distinct. -/
theorem claim_C6_overlapScore (aTokens : List String) (bText : String) :
    overlapScore aTokens bText =
        (aTokens.filter fun t => (tokens bText).contains t).length ∧
      (∀ bs : List String, aTokens.Perm bs →
        overlapScore aTokens bText = overlapScore bs bText) ∧
      ((∀ t ∈ aTokens, t ∉ tokens bText) → overlapScore aTokens bText = 0) ∧
      (aTokens.Nodup → overlapScore aTokens bText = interCardSpec aTokens bText) := by
  refine ⟨overlapScore_eq_filter aTokens bText, ?_, ?_, ?_⟩
  · intro bs hperm
    simpa [overlapScore] using hperm.countP_eq fun t => (tokens bText).contains t
  · intro hdisj
    refine List.countP_eq_zero.mpr ?_
    intro t ht
    simpa using hdisj t ht
  · intro hnd
    rw [overlapScore_eq_filter]
    unfold interCardSpec
    rw [List.dedup_eq_self.mpr hnd]

/-- C6 witness: concrete application of the amended theorem (disjoint
token sets give score 0). -/
theorem claim_C6_witness : overlapScore ["abc"] "xyz" = 0 :=
  (claim_C6_overlapScore ["abc"] "xyz").2.2.1 (by decide)

/-! ## Data model: event rows and the unstable image field -/

/-- One element of a `location_image` array: either a bare string or an
object whose `url` key may be absent. -/
inductive ImgElem where
  | estr (s : String)
  | eobj (url : Option String)
  deriving DecidableEq, Repr

/-- The unstable shape of the upstream `location_image` field:
absent/null, string, array, or object with optional `url`/`href`. -/
inductive ImageField where
  | missing
  | str (s : String)
  | arr (elems : List ImgElem)
  | obj (url href : Option String)
  deriving DecidableEq, Repr

/-- An event row of the met_agenda dataset, restricted to the fields the
enrichment scripts read (absent JS fields are `none`; a numeric `uid` is
modelled by its decimal string). -/
structure Row where
  uid : Option String := none
  slug : Option String := none
  title_fr : Option String := none
  title : Option String := none
  title_en : Option String := none
  location_name : Option String := none
  location : Option String := none
  location_title : Option String := none
  location_address : Option String := none
  location_district : Option String := none
  location_city : Option String := none
  city : Option String := none
  originagenda_uid : Option String := none
  location_image : ImageField := ImageField.missing
  deriving DecidableEq, Repr

/-- JS `v?.url || v?.href` collapsed to a string (`""` stands for every
falsy outcome, which is all the surrounding code ever distinguishes). -/
def urlOrHref (url href : Option String) : String :=
  jsOr url (jsOr href "")

/-- Embedding of `isMissingImage` (identical in both generations). -/
def isMissingImage (row : Row) : Bool :=
  match row.location_image with
  | ImageField.missing => true
  | ImageField.arr es => es.length = 0
  | ImageField.str s => jsTrim s = ""
  | ImageField.obj url href => !(urlOrHref url href ≠ "")

/-- Embedding of `bestImageUrlFromRow`.  Faithfully to the JS, an array
whose first element is an object without a truthy `url` yields that
object itself (`v?.[0]?.url || v?.[0] || ""`), hence the `JVal` result
type. -/
def bestImageUrlFromRow (row : Row) : JVal :=
  match row.location_image with
  | ImageField.missing => JVal.str ""
  | ImageField.str s => if s = "" then JVal.str "" else JVal.str s
  | ImageField.arr [] => JVal.str ""
  | ImageField.arr (ImgElem.estr s :: _) => JVal.str s
  | ImageField.arr (ImgElem.eobj u :: _) =>
    match u with
    | some s => if s = "" then JVal.obj (some s) none else JVal.str s
    | none => JVal.obj none none
  | ImageField.obj url href => JVal.str (urlOrHref url href)

/-- C8: `isMissingImage` is true exactly on the "no image" shapes:
absent/null, whitespace-only string, empty array, and object without a
truthy `url`/`href`; it is false on every other shape (non-empty string,
non-empty array, object with a non-empty url). -/
theorem claim_C8_isMissingImage (row : Row) :
    isMissingImage row = true ↔
      (row.location_image = ImageField.missing ∨
        (∃ s, row.location_image = ImageField.str s ∧ jsTrim s = "") ∨
        row.location_image = ImageField.arr [] ∨
        (∃ u h, row.location_image = ImageField.obj u h ∧ urlOrHref u h = "")) := by
  unfold isMissingImage
  cases him : row.location_image with
  | missing => simp
  | str s => simp [him]
  | arr es =>
    simp only [him, decide_eq_true_eq]
    constructor
    · intro h
      exact Or.inr (Or.inr (Or.inl (by simp [List.length_eq_zero.mp h])))
    · rintro (h | ⟨s, h, _⟩ | h | ⟨u, hh, h, _⟩) <;> simp_all
  | obj u hr =>
    simp only [him, Bool.not_eq_true', decide_eq_false_iff_not, not_not]
    constructor
    · intro hh
      exact Or.inr (Or.inr (Or.inr ⟨u, hr, rfl, hh⟩))
    · rintro (h | ⟨s, h, _⟩ | h | ⟨u1, h1, h, hh⟩) <;> simp_all

/-- C8 witness: an object carrying neither `url` nor `href` counts as
missing. -/
theorem claim_C8_witness :
    isMissingImage { location_image := ImageField.obj none none } = true :=
  (claim_C8_isMissingImage _).mpr
    (Or.inr (Or.inr (Or.inr ⟨none, none, rfl, rfl⟩)))

/-! ## Query Builder (second generation `buildSearchQuery`) -/

/-- JS `Array.prototype.join(sep)` (kept on character lists so that the
suffix lemma below stays elementary). -/
def joinSepL (sep : List Char) : List (List Char) → List Char
  | [] => []
  | [x] => x
  | x :: y :: rest => x ++ sep ++ joinSepL sep (y :: rest)

/-- JS `parts.join(sep)` on strings. -/
def joinWith (sep : String) (l : List String) : String :=
  ⟨joinSepL sep.data (l.map String.data)⟩

/-- The venue/place name of a row: `location_name || location ||
location_title || ""`. -/
def venuePart (row : Row) : String :=
  jsOr row.location_name (jsOr row.location (jsOr row.location_title ""))

/-- The city of a row: `location_city || city || "Bordeaux"`. -/
def cityPart (row : Row) : String :=
  jsOr row.location_city (jsOr row.city "Bordeaux")

/-- The title of a row: `title_fr || title || title_en || ""`. -/
def titlePart (row : Row) : String :=
  jsOr row.title_fr (jsOr row.title (jsOr row.title_en ""))

/-- Embedding of the second-generation `buildSearchQuery`: prefer a
venue-based query `[place, address, district, city, "France"]`, falling
back to `[title, city, "France"]`, filtering empty parts and joining
with spaces. -/
def buildSearchQuery (row : Row) : String :=
  let place := venuePart row
  let address := jsOr row.location_address ""
  let district := jsOr row.location_district ""
  let city := cityPart row
  if place ≠ "" then
    joinWith " " (([place, address, district, city, "France"]).filter fun s => s ≠ "")
  else
    joinWith " " (([titlePart row, city, "France"]).filter fun s => s ≠ "")

theorem joinSepL_suffix (sep f : List Char) (l : List (List Char)) :
    f <:+ joinSepL sep (l ++ [f]) := by
  induction l with
  | nil => simp [joinSepL]
  | cons x rest ih =>
    have hstep : joinSepL sep ((x :: rest) ++ [f]) =
        x ++ sep ++ joinSepL sep (rest ++ [f]) := by
      cases rest <;> rfl
    rw [hstep]
    exact ih.trans (List.suffix_append _ _)

theorem joinWith_France_suffix (l : List String) :
    "France".data <:+ (joinWith " " (l ++ ["France"])).data := by
  simpa [joinWith] using joinSepL_suffix " ".data "France".data (l.map String.data)

/-- C7: with a non-empty venue the query is the space-join of the
non-empty parts of `[venue, address, district, city, "France"]`; without
a venue it is the space-join of the non-empty parts of
`[title, city, "France"]`; in both cases the text ends with the
disambiguating locality token `"France"`. -/
theorem claim_C7_buildSearchQuery (row : Row) :
    (venuePart row ≠ "" →
        buildSearchQuery row =
          joinWith " " (([venuePart row, jsOr row.location_address "",
            jsOr row.location_district "", cityPart row, "France"]).filter
              fun s => s ≠ "")) ∧
      (venuePart row = "" →
        buildSearchQuery row =
          joinWith " " (([titlePart row, cityPart row, "France"]).filter
            fun s => s ≠ "")) ∧
      "France".data <:+ (buildSearchQuery row).data := by
  have h1 : venuePart row ≠ "" →
      buildSearchQuery row =
        joinWith " " (([venuePart row, jsOr row.location_address "",
          jsOr row.location_district "", cityPart row, "France"]).filter
            fun s => s ≠ "") := by
    intro h
    simp [buildSearchQuery, h]
  have h2 : venuePart row = "" →
      buildSearchQuery row =
        joinWith " " (([titlePart row, cityPart row, "France"]).filter
          fun s => s ≠ "") := by
    intro h
    simp [buildSearchQuery, h]
  refine ⟨h1, h2, ?_⟩
  by_cases h : venuePart row = ""
  · rw [h2 h]
    have hsplit : ([titlePart row, cityPart row, "France"]).filter (fun s => s ≠ "") =
        (([titlePart row, cityPart row]).filter fun s => s ≠ "") ++ ["France"] := by
      have hc : ([titlePart row, cityPart row, "France"] : List String) =
          [titlePart row, cityPart row] ++ ["France"] := by simp
      rw [hc, List.filter_append]
      simp
    rw [hsplit]
    exact joinWith_France_suffix _
  · rw [h1 h]
    have hsplit : ([venuePart row, jsOr row.location_address "",
          jsOr row.location_district "", cityPart row, "France"]).filter
            (fun s => s ≠ "") =
        (([venuePart row, jsOr row.location_address "",
          jsOr row.location_district "", cityPart row]).filter fun s => s ≠ "") ++
          ["France"] := by
      have hc : ([venuePart row, jsOr row.location_address "",
          jsOr row.location_district "", cityPart row, "France"] : List String) =
          [venuePart row, jsOr row.location_address "",
            jsOr row.location_district "", cityPart row] ++ ["France"] := by simp
      rw [hc, List.filter_append]
      simp
    rw [hsplit]
    exact joinWith_France_suffix _

/-- C7 witness: a concrete venue row; the derived query is
"Salle Test Bordeaux France". -/
theorem claim_C7_witness :
    buildSearchQuery { location_name := some "Salle Test" } =
      joinWith " " ((["Salle Test", jsOr none "", jsOr none "",
        cityPart { location_name := some "Salle Test" }, "France"]).filter
          fun s => s ≠ "") :=
  (claim_C7_buildSearchQuery { location_name := some "Salle Test" }).1 (by decide)

/-! ## Source adapters: shared text utilities -/

/-- Scan for the next `'>'`, returning the remainder after it. -/
def findGt : List Char → Option (List Char)
  | [] => none
  | c :: rest => if c = '>' then some rest else findGt rest

/-- Embedding of `replace(/<[^>]*>/g, " ")` with fuel (each step
consumes at least one character, so `l.length` fuel always suffices). -/
def stripTagsAux : Nat → List Char → List Char
  | 0, l => l
  | _ + 1, [] => []
  | n + 1, c :: rest =>
    if c = '<' then
      match findGt rest with
      | some r => ' ' :: stripTagsAux n r
      | none => c :: stripTagsAux n rest
    else c :: stripTagsAux n rest

/-- Embedding of `replace(/\s+/g, " ")`: collapse whitespace runs. -/
def wsRunsAux : Bool → List Char → List Char
  | _, [] => []
  | prevWs, c :: rest =>
    if isWsChar c then
      if prevWs then wsRunsAux true rest else ' ' :: wsRunsAux true rest
    else c :: wsRunsAux false rest

/-- Embedding of `stripHtml`: drop tags, collapse whitespace, trim. -/
def stripHtml (s : String) : String :=
  ⟨trimSpacesL (wsRunsAux false (stripTagsAux s.data.length s.data))⟩

/-- ASCII lowercasing of one character (JS `toLowerCase`, modelled for
the ASCII provider names the scripts compare). -/
def lowerChar (c : Char) : Char :=
  if 'A' ≤ c ∧ c ≤ 'Z' then Char.ofNat (c.toNat + 32) else c

/-- JS `toLowerCase` on a string. -/
def lowerStr (s : String) : String :=
  ⟨s.data.map lowerChar⟩

/-- Auxiliary for `includes`: does `pat` start the list? -/
def startsL : List Char → List Char → Bool
  | [], _ => true
  | _ :: _, [] => false
  | a :: as, b :: bs => a = b && startsL as bs

/-- Embedding of JS `String.prototype.includes`. -/
def containsLAux (pat : List Char) : List Char → Bool
  | [] => pat.isEmpty
  | c :: rest => startsL pat (c :: rest) || containsLAux pat rest

/-- Embedding of `isBibliotheque` (second generation): the normalized
venue name contains the keyword "bibliotheque". -/
def isBibliotheque (row : Row) : Bool :=
  containsLAux "bibliotheque".data (normalizeText (jsOr row.location_name "")).data

/-! ## Source adapters: Openverse (OpenMediaSearch) -/

/-- Enrichment configuration (the environment-derived constants the
selection logic reads). -/
structure Config where
  officialImages : Bool
  openagendaKey : String
  minWidth : Nat
  preferredProviders : List String
  deriving DecidableEq, Repr

/-- A raw Openverse search result (each `tags` element stands for the
already-extracted `t?.name || t` value). -/
structure OVResult where
  title : Option String := none
  creator : Option String := none
  creator_name : Option String := none
  tags : Option (List String) := none
  provider : Option String := none
  source : Option String := none
  width : Option Nat := none
  height : Option Nat := none
  license : Option String := none
  foreign_landing_url : Option String := none
  url : Option String := none
  thumbnail : Option String := none
  deriving DecidableEq, Repr

/-- A selected image candidate / cache mapping.  JS object keys that a
particular producer leaves absent are modelled by `""` (strings) or
`none` (dimensions); only truthiness of these fields is ever read. -/
structure Candidate where
  url : JVal
  provider : String
  page_url : String
  author : String
  license : String
  credit : String
  source_url : String
  width : Option Nat
  height : Option Nat
  deriving DecidableEq, Repr

/-- Embedding of `scoreOpenverseResult` (identical in both generations
up to the configured minimum width and preferred-provider set). -/
def scoreOpenverseResult (minWidth : Nat) (preferred : List String)
    (evTokens : List String) (r : OVResult) : Nat :=
  let title := jsOr r.title ""
  let creator := jsOr r.creator (jsOr r.creator_name "")
  let tagsText :=
    match r.tags with
    | some ts => joinWith " " ts
    | none => ""
  let provider := lowerStr (jsOr r.provider (jsOr r.source ""))
  let width := r.width.getD 0
  let height := r.height.getD 0
  overlapScore evTokens title * 3 + overlapScore evTokens creator * 1 +
    overlapScore evTokens tagsText * 1 +
    (if width ≥ 2000 ∨ height ≥ 2000 then 4 else if width ≥ minWidth then 2 else 0) +
    (if preferred.contains provider then 4 else 0) +
    (if creator ≠ "" then 1 else 0) +
    (if jsOr r.license "" ≠ "" then 1 else 0) +
    (if jsOr r.foreign_landing_url "" ≠ "" then 1 else 0)

/-- JS `x || null` on a numeric field: 0 and absent both become null. -/
def numOrNull (w : Option Nat) : Option Nat :=
  match w with
  | some n => if n = 0 then none else some n
  | none => none

/-- Embedding of `toMappingFromOpenverse`. -/
def toMappingFromOpenverse (r : OVResult) : Candidate :=
  { url := JVal.str (jsOr r.url (jsOr r.thumbnail ""))
    provider := jsOr r.provider "Openverse"
    page_url := jsOr r.foreign_landing_url ""
    author := jsOr r.creator (jsOr r.creator_name "")
    license := jsOr r.license ""
    credit := joinWith " · " (([jsOr r.creator (jsOr r.creator_name ""),
      jsOr r.license ""]).filter fun s => s ≠ "")
    source_url := jsOr r.source ""
    width := numOrNull r.width
    height := numOrNull r.height }

/-- `sort((a, b) => b.s - a.s)[0]` with a stable sort: the earliest
element attaining the maximal score. -/
def argmaxFirst {α : Type} (score : α → Nat) : List α → Option α
  | [] => none
  | x :: xs =>
    match argmaxFirst score xs with
    | none => some x
    | some y => if score y > score x then some y else some x

/-- The Openverse block of `pickBestImageForEvent`: rank the results,
map the best one, accept it under
`mapped.url && (width >= MIN_WIDTH || !width)`. -/
def openverseStep (minWidth : Nat) (preferred : List String)
    (evTokens : List String) (results : List OVResult) : Option Candidate :=
  match argmaxFirst (scoreOpenverseResult minWidth preferred evTokens) results with
  | none => none
  | some best =>
    let mapped := toMappingFromOpenverse best
    let width := best.width.getD 0
    if jvTruthy mapped.url = true ∧ (width ≥ minWidth ∨ width = 0) then some mapped
    else none

/-! ## Source adapters: Wikimedia Commons (EncyclopediaMediaSearch,
first generation only) -/

/-- The `imageinfo[0]` object of a Commons page, with the consulted
`extmetadata` leaves flattened in (`artistHtml` is
`extmetadata.Artist.value`, and so on). -/
structure CommonsImageInfo where
  url : Option String := none
  thumburl : Option String := none
  width : Option Nat := none
  height : Option Nat := none
  artistHtml : Option String := none
  licenseShortHtml : Option String := none
  licenseHtml : Option String := none
  deriving DecidableEq, Repr

/-- A page returned by the Commons imageinfo query. -/
structure CommonsPage where
  title : Option String := none
  imageinfo : Option (List CommonsImageInfo) := none
  deriving DecidableEq, Repr

/-- JS `page?.imageinfo?.[0] || {}`. -/
def pageInfo (p : CommonsPage) : CommonsImageInfo :=
  match p.imageinfo with
  | some (i :: _) => i
  | _ => {}

/-- Embedding of `scoreCommonsPage`. -/
def scoreCommonsPage (minWidth : Nat) (evTokens : List String)
    (page : CommonsPage) : Nat :=
  let title := jsOr page.title ""
  let info := pageInfo page
  let artist := stripHtml (jsOr info.artistHtml "")
  let license := stripHtml (jsOr info.licenseShortHtml "")
  let w := info.width.getD 0
  let h := info.height.getD 0
  overlapScore evTokens title * 3 + overlapScore evTokens artist * 1 +
    (if license ≠ "" then 2 else 0) +
    (if w ≥ 2000 ∨ h ≥ 2000 then 3 else if w ≥ minWidth then 2 else 0)

/-- Uppercase hexadecimal digit. -/
def hexDigitChar (n : Nat) : Char :=
  if n < 10 then Char.ofNat (48 + n) else Char.ofNat (55 + n)

/-- UTF-8 bytes of one scalar value. -/
def utf8Bytes (c : Char) : List Nat :=
  let n := c.toNat
  if n < 128 then [n]
  else if n < 2048 then [192 + n / 64, 128 + n % 64]
  else if n < 65536 then [224 + n / 4096, 128 + (n / 64) % 64, 128 + n % 64]
  else [240 + n / 262144, 128 + (n / 4096) % 64, 128 + (n / 64) % 64, 128 + n % 64]

/-- Characters `encodeURIComponent` leaves unescaped. -/
def isUriUnreserved (c : Char) : Bool :=
  ('A' ≤ c ∧ c ≤ 'Z') ∨ ('a' ≤ c ∧ c ≤ 'z') ∨ ('0' ≤ c ∧ c ≤ '9') ∨
    c ∈ ['-', '_', '.', '!', '~', '*', Char.ofNat 39, '(', ')']

/-- Embedding of JS `encodeURIComponent`. -/
def encodeURIComponent (s : String) : String :=
  ⟨s.data.flatMap fun c =>
    if isUriUnreserved c then [c]
    else (utf8Bytes c).flatMap fun b => ['%', hexDigitChar (b / 16), hexDigitChar (b % 16)]⟩

/-- Embedding of `replace(/%3A/g, ":")`. -/
def replacePercent3A : List Char → List Char
  | '%' :: '3' :: 'A' :: rest => ':' :: replacePercent3A rest
  | c :: rest => c :: replacePercent3A rest
  | [] => []

/-- Embedding of `toMappingFromCommons` (the JS object carries no
`source_url` key, modelled as `""`). -/
def toMappingFromCommons (page : CommonsPage) : Candidate :=
  let info := pageInfo page
  let author := stripHtml (jsOr info.artistHtml "")
  let license := stripHtml (jsOr info.licenseShortHtml (jsOr info.licenseHtml ""))
  let pageTitle := jsOr page.title ""
  let commonsPageUrl :=
    if pageTitle ≠ "" then
      "https://commons.wikimedia.org/wiki/" ++
        (⟨replacePercent3A (encodeURIComponent pageTitle).data⟩ : String)
    else ""
  { url := JVal.str (jsOr info.thumburl (jsOr info.url ""))
    provider := "Wikimedia Commons"
    page_url := commonsPageUrl
    author := author
    license := license
    credit := joinWith " · " (([author, license]).filter fun s => s ≠ "")
    source_url := ""
    width := numOrNull info.width
    height := numOrNull info.height }

/-- The Commons block of the first-generation `pickBestImageForEvent`:
rank the fetched pages, accept the best mapping iff its url is
non-empty — there is no width condition here. -/
def commonsStep (minWidth : Nat) (evTokens : List String)
    (pages : List CommonsPage) : Option Candidate :=
  match argmaxFirst (scoreCommonsPage minWidth evTokens) pages with
  | none => none
  | some bestPage =>
    let mapped := toMappingFromCommons bestPage
    if jvTruthy mapped.url = true then some mapped else none

/-! ## Source adapters: OpenAgenda (OfficialAgendaAPI) -/

/-- An OpenAgenda event object, restricted to the consulted fields
(`locationImage` is `evt?.location?.image`). -/
structure OAEvent where
  image : Option String := none
  thumbnail : Option String := none
  originalImage : Option String := none
  locationImage : Option String := none
  imageCredits : Option String := none
  locationImageCredits : Option String := none
  canonicalUrl : Option String := none
  url : Option String := none
  deriving DecidableEq, Repr

/-- Result of `pickOAImage`. -/
structure OAImg where
  url : String
  credit : String
  deriving DecidableEq, Repr

/-- Embedding of `pickOAImage`. -/
def pickOAImage (evt : OAEvent) : Option OAImg :=
  let url := jsOr evt.image (jsOr evt.thumbnail (jsOr evt.originalImage
    (jsOr evt.locationImage "")))
  let credit := jsOr evt.imageCredits (jsOr evt.locationImageCredits "")
  if url ≠ "" then some ⟨url, credit⟩ else none

/-- The candidate built from an accepted OpenAgenda image (the JS
object carries no `width`/`height` keys, modelled as `none`). -/
def oaCandidate (evt : OAEvent) (img : OAImg) : Candidate :=
  { url := JVal.str img.url
    provider := "OpenAgenda"
    page_url := jsOr evt.canonicalUrl (jsOr evt.url "")
    author := ""
    license := ""
    credit := img.credit
    source_url := jsOr evt.canonicalUrl (jsOr evt.url "")
    width := none
    height := none }

/-- The candidate built from the row's own upstream image field. -/
def upstreamCandidate (u : JVal) : Candidate :=
  { url := u
    provider := "Bordeaux Metropole (met_agenda)"
    page_url := ""
    author := ""
    license := ""
    credit := ""
    source_url := ""
    width := none
    height := none }

/-! ## Selection Policy (second-generation `pickBestImageForEvent`) -/

/-- The network sources the orchestrator can query. -/
inductive Source where
  | openAgenda
  | libScraper
  | openverse
  deriving DecidableEq, Repr

/-- The outcome of each of the three network interactions, supplied as
an oracle: `Except.error ()` models a rejected fetch/parse promise. -/
structure EnvV2 where
  oaEvent : Except Unit (Option OAEvent)
  libResult : Except Unit (Option Candidate)
  ovResults : Except Unit (List OVResult)

/-- The Openverse try/catch block: a thrown failure is caught and
treated as no candidate. -/
def ovPhase (cfg : Config) (evTokens : List String)
    (res : Except Unit (List OVResult)) : Option Candidate :=
  match res with
  | Except.error _ => none
  | Except.ok results => openverseStep cfg.minWidth cfg.preferredProviders evTokens results

/-- The library-scraper try/catch block: a thrown failure is caught; a
returned candidate is taken only when its url is truthy. -/
def libPhase (res : Except Unit (Option Candidate)) : Option Candidate :=
  match res with
  | Except.error _ => none
  | Except.ok none => none
  | Except.ok (some c) => if jvTruthy c.url = true then some c else none

/-- Steps 1 (venue scraper, gated on `isBibliotheque`) and 2 (Openverse)
of the second-generation cascade, with the trace of queried sources. -/
def libThenOv (cfg : Config) (row : Row) (evTokens : List String) (env : EnvV2) :
    Except Unit (Option Candidate) × List Source :=
  if isBibliotheque row = true then
    match libPhase env.libResult with
    | some c => (Except.ok (some c), [Source.libScraper])
    | none =>
      (Except.ok (ovPhase cfg evTokens env.ovResults),
        [Source.libScraper, Source.openverse])
  else (Except.ok (ovPhase cfg evTokens env.ovResults), [Source.openverse])

/-- Gate of the OpenAgenda branch:
`OFFICIAL_IMAGES && OPENAGENDA_KEY && agendaUID`. -/
def oaGate (cfg : Config) (row : Row) : Bool :=
  cfg.officialImages && decide (cfg.openagendaKey ≠ "") &&
    decide (jsTrim (jsStr row.originagenda_uid) ≠ "")

/-- Embedding of the second-generation `pickBestImageForEvent`.  Along
with the selected candidate (or the propagated OpenAgenda failure) it
returns the list of network sources actually queried, in order. -/
def pickBestImageForEvent (cfg : Config) (row : Row) (env : EnvV2) :
    Except Unit (Option Candidate) × List Source :=
  let evTokens := tokens (buildSearchQuery row)
  let upstream := bestImageUrlFromRow row
  if jvTruthy upstream = true then
    (Except.ok (some (upstreamCandidate upstream)), [])
  else if oaGate cfg row = true then
    match env.oaEvent with
    | Except.error _ => (Except.error (), [Source.openAgenda])
    | Except.ok oaOpt =>
      match oaOpt with
      | some evt =>
        match pickOAImage evt with
        | some img =>
          if img.url ≠ "" then
            (Except.ok (some (oaCandidate evt img)), [Source.openAgenda])
          else
            let p := libThenOv cfg row evTokens env
            (p.1, Source.openAgenda :: p.2)
        | none =>
          let p := libThenOv cfg row evTokens env
          (p.1, Source.openAgenda :: p.2)
      | none =>
        let p := libThenOv cfg row evTokens env
        (p.1, Source.openAgenda :: p.2)
  else libThenOv cfg row evTokens env

/-! ## The specification's chain view of the Selection Policy -/

/-- One adapter of the specification's ordered chain: a configuration
gate, the source tag, and the adapter's outcome. -/
structure ChainStep where
  gate : Bool
  tag : Source
  run : Except Unit (Option Candidate)

/-- Try the chain in order, skipping gated-off steps, short-circuiting
on the first accepted candidate (or propagated failure), and recording
which sources were queried. -/
def runChain : List ChainStep → Except Unit (Option Candidate) × List Source
  | [] => (Except.ok none, [])
  | st :: rest =>
    if st.gate = true then
      match st.run with
      | Except.error e => (Except.error e, [st.tag])
      | Except.ok (some c) => (Except.ok (some c), [st.tag])
      | Except.ok none =>
        let p := runChain rest
        (p.1, st.tag :: p.2)
    else runChain rest

/-- The OpenAgenda branch's accepted candidate, as a pure function of
the oracle answer. -/
def oaAccepted : Option OAEvent → Option Candidate
  | none => none
  | some evt =>
    match pickOAImage evt with
    | some img => if img.url ≠ "" then some (oaCandidate evt img) else none
    | none => none

/-- Chain step #2: OfficialAgendaAPI (its failure propagates). -/
def oaStepSpec (cfg : Config) (row : Row) (env : EnvV2) : ChainStep :=
  ⟨oaGate cfg row, Source.openAgenda,
    match env.oaEvent with
    | Except.error e => Except.error e
    | Except.ok oaOpt => Except.ok (oaAccepted oaOpt)⟩

/-- Chain step #3: VenueDirectoryScraper, gated on the venue-category
predicate. -/
def libStepSpec (row : Row) (env : EnvV2) : ChainStep :=
  ⟨isBibliotheque row, Source.libScraper, Except.ok (libPhase env.libResult)⟩

/-- Chain step #4: OpenMediaSearch, always attempted. -/
def ovStepSpec (cfg : Config) (row : Row) (env : EnvV2) : ChainStep :=
  ⟨true, Source.openverse,
    Except.ok (ovPhase cfg (tokens (buildSearchQuery row)) env.ovResults)⟩

/-- The specification's Selection Policy: UpstreamField first (accepted
immediately when the record carries an image), then the ordered,
short-circuiting chain OpenAgenda / venue scraper / Openverse. -/
def selectImageChainSpec (cfg : Config) (row : Row) (env : EnvV2) :
    Except Unit (Option Candidate) × List Source :=
  let upstream := bestImageUrlFromRow row
  if jvTruthy upstream = true then
    (Except.ok (some (upstreamCandidate upstream)), [])
  else runChain [oaStepSpec cfg row env, libStepSpec row env, ovStepSpec cfg row env]

/-! ## C1: fixed priority order with short-circuit -/

theorem runChain_cons_gate_false (st : ChainStep) (rest : List ChainStep)
    (h : st.gate = false) : runChain (st :: rest) = runChain rest := by
  simp [runChain, h]

theorem runChain_cons_error (st : ChainStep) (rest : List ChainStep)
    (h : st.gate = true) (e : Unit) (hr : st.run = Except.error e) :
    runChain (st :: rest) = (Except.error e, [st.tag]) := by
  simp [runChain, h, hr]

theorem runChain_cons_some (st : ChainStep) (rest : List ChainStep)
    (h : st.gate = true) (c : Candidate) (hr : st.run = Except.ok (some c)) :
    runChain (st :: rest) = (Except.ok (some c), [st.tag]) := by
  simp [runChain, h, hr]

theorem runChain_cons_none (st : ChainStep) (rest : List ChainStep)
    (h : st.gate = true) (hr : st.run = Except.ok none) :
    runChain (st :: rest) = ((runChain rest).1, st.tag :: (runChain rest).2) := by
  simp [runChain, h, hr]

theorem runChain_singleton (tag : Source) (o : Option Candidate) :
    runChain [⟨true, tag, Except.ok o⟩] = (Except.ok o, [tag]) := by
  cases o with
  | none => simp [runChain]
  | some c => simp [runChain]

theorem runChain_ov (cfg : Config) (row : Row) (env : EnvV2) :
    runChain [ovStepSpec cfg row env] =
      (Except.ok (ovPhase cfg (tokens (buildSearchQuery row)) env.ovResults),
        [Source.openverse]) :=
  runChain_singleton Source.openverse _

theorem runChain_lib_ov (cfg : Config) (row : Row) (env : EnvV2) :
    runChain [libStepSpec row env, ovStepSpec cfg row env] =
      libThenOv cfg row (tokens (buildSearchQuery row)) env := by
  by_cases hb : isBibliotheque row = true
  · cases hl : libPhase env.libResult with
    | some c =>
      rw [runChain_cons_some (libStepSpec row env) _ (by simpa [libStepSpec] using hb)
        c (by simp [libStepSpec, hl])]
      simp [libThenOv, hb, hl, libStepSpec]
    | none =>
      rw [runChain_cons_none (libStepSpec row env) _ (by simpa [libStepSpec] using hb)
        (by simp [libStepSpec, hl]), runChain_ov]
      simp [libThenOv, hb, hl, libStepSpec]
  · simp only [Bool.not_eq_true] at hb
    rw [runChain_cons_gate_false (libStepSpec row env) _ (by simpa [libStepSpec] using hb),
      runChain_ov]
    simp [libThenOv, hb]

theorem pick_eq_chain (cfg : Config) (row : Row) (env : EnvV2) :
    pickBestImageForEvent cfg row env = selectImageChainSpec cfg row env := by
  unfold pickBestImageForEvent selectImageChainSpec
  by_cases hb : jvTruthy (bestImageUrlFromRow row) = true
  · simp [hb]
  · simp only [Bool.not_eq_true] at hb
    simp only [hb, Bool.false_eq_true, if_false]
    by_cases hg : oaGate cfg row = true
    · simp only [hg, if_true]
      cases hoa : env.oaEvent with
      | error e =>
        rw [runChain_cons_error (oaStepSpec cfg row env) _
          (by simpa [oaStepSpec] using hg) e (by simp [oaStepSpec, hoa])]
        rfl
      | ok oaOpt =>
        cases oaOpt with
        | none =>
          rw [runChain_cons_none (oaStepSpec cfg row env) _
            (by simpa [oaStepSpec] using hg) (by simp [oaStepSpec, hoa, oaAccepted]),
            runChain_lib_ov cfg row env]
          rfl
        | some evt =>
          cases himg : pickOAImage evt with
          | none =>
            rw [runChain_cons_none (oaStepSpec cfg row env) _
              (by simpa [oaStepSpec] using hg)
              (by simp [oaStepSpec, hoa, oaAccepted, himg]),
              runChain_lib_ov cfg row env]
            simp only [himg]
            rfl
          | some img =>
            by_cases hurl : img.url ≠ ""
            · rw [runChain_cons_some (oaStepSpec cfg row env) _
                (by simpa [oaStepSpec] using hg) (oaCandidate evt img)
                (by simp [oaStepSpec, hoa, oaAccepted, himg, hurl])]
              simp [himg, hurl, oaStepSpec]
            · simp only [not_not] at hurl
              rw [runChain_cons_none (oaStepSpec cfg row env) _
                (by simpa [oaStepSpec] using hg)
                (by simp [oaStepSpec, hoa, oaAccepted, himg, hurl]),
                runChain_lib_ov cfg row env]
              simp only [himg, hurl]
              rfl
    · simp only [Bool.not_eq_true] at hg
      rw [runChain_cons_gate_false (oaStepSpec cfg row env) _
        (by simpa [oaStepSpec] using hg), runChain_lib_ov cfg row env]
      simp [hg]

theorem runChain_trace_sublist (steps : List ChainStep) :
    List.Sublist (runChain steps).2 (steps.map fun st => st.tag) := by
  induction steps with
  | nil => simp [runChain]
  | cons st rest ih =>
    by_cases hg : st.gate = true
    · cases hr : st.run with
      | error e =>
        rw [runChain_cons_error st rest hg e hr]
        exact List.Sublist.cons₂ st.tag (List.nil_sublist _)
      | ok o =>
        cases o with
        | some c =>
          rw [runChain_cons_some st rest hg c hr]
          exact List.Sublist.cons₂ st.tag (List.nil_sublist _)
        | none =>
          rw [runChain_cons_none st rest hg hr]
          simpa using List.Sublist.cons₂ st.tag ih
    · simp only [Bool.not_eq_true] at hg
      rw [runChain_cons_gate_false st rest hg]
      exact ih.cons st.tag

theorem runChain_trace_gate (steps : List ChainStep) (t : Source)
    (hmem : t ∈ (runChain steps).2) :
    ∃ st ∈ steps, st.gate = true ∧ st.tag = t := by
  induction steps with
  | nil => simp [runChain] at hmem
  | cons st rest ih =>
    by_cases hg : st.gate = true
    · cases hr : st.run with
      | error e =>
        rw [runChain_cons_error st rest hg e hr] at hmem
        simp only [List.mem_singleton] at hmem
        exact ⟨st, by simp, hg, hmem.symm⟩
      | ok o =>
        cases o with
        | some c =>
          rw [runChain_cons_some st rest hg c hr] at hmem
          simp only [List.mem_singleton] at hmem
          exact ⟨st, by simp, hg, hmem.symm⟩
        | none =>
          rw [runChain_cons_none st rest hg hr] at hmem
          simp only [List.mem_cons] at hmem
          rcases hmem with h | h
          · exact ⟨st, by simp, hg, h.symm⟩
          · rcases ih h with ⟨st2, hmem2, hgate2, htag2⟩
            exact ⟨st2, by simp [hmem2], hgate2, htag2⟩
    · simp only [Bool.not_eq_true] at hg
      rw [runChain_cons_gate_false st rest hg] at hmem
      rcases ih hmem with ⟨st2, hmem2, hgate2, htag2⟩
      exact ⟨st2, by simp [hmem2], hgate2, htag2⟩

/-- C1: the second-generation `pickBestImageForEvent` equals the
specification's ordered short-circuiting chain (UpstreamField, then
OfficialAgendaAPI gated on configuration and the upstream agenda id,
then the venue scraper gated on the venue-category predicate, then
OpenMediaSearch); in particular, when the record itself carries an
image the upstream candidate is returned at once and no network adapter
is queried, the trace of queried sources is always an in-order sublist
of [OpenAgenda, scraper, Openverse], and gated-off adapters are never
queried. -/
theorem claim_C1_selectImage (cfg : Config) (row : Row) (env : EnvV2) :
    pickBestImageForEvent cfg row env = selectImageChainSpec cfg row env ∧
      (jvTruthy (bestImageUrlFromRow row) = true →
        pickBestImageForEvent cfg row env =
          (Except.ok (some (upstreamCandidate (bestImageUrlFromRow row))), [])) ∧
      List.Sublist (pickBestImageForEvent cfg row env).2
        [Source.openAgenda, Source.libScraper, Source.openverse] ∧
      (oaGate cfg row = false →
        Source.openAgenda ∉ (pickBestImageForEvent cfg row env).2) ∧
      (isBibliotheque row = false →
        Source.libScraper ∉ (pickBestImageForEvent cfg row env).2) := by
  have heq := pick_eq_chain cfg row env
  refine ⟨heq, ?_, ?_, ?_, ?_⟩
  · intro h
    unfold pickBestImageForEvent
    simp [h]
  · rw [heq]
    unfold selectImageChainSpec
    by_cases hb : jvTruthy (bestImageUrlFromRow row) = true
    · simp [hb]
    · simp only [Bool.not_eq_true] at hb
      simp only [hb, Bool.false_eq_true, if_false]
      have hs := runChain_trace_sublist
        [oaStepSpec cfg row env, libStepSpec row env, ovStepSpec cfg row env]
      simpa [oaStepSpec, libStepSpec, ovStepSpec] using hs
  · intro hg hmem
    rw [heq] at hmem
    unfold selectImageChainSpec at hmem
    by_cases hb : jvTruthy (bestImageUrlFromRow row) = true
    · simp [hb] at hmem
    · simp only [Bool.not_eq_true] at hb
      simp only [hb, Bool.false_eq_true, if_false] at hmem
      rcases runChain_trace_gate _ _ hmem with ⟨st, hstmem, hgate, htag⟩
      simp only [List.mem_cons, List.mem_singleton, List.not_mem_nil, or_false] at hstmem
      rcases hstmem with rfl | rfl | rfl
      · rw [show (oaStepSpec cfg row env).gate = oaGate cfg row from rfl, hg] at hgate
        exact Bool.false_ne_true hgate
      · exact absurd htag (by simp [libStepSpec])
      · exact absurd htag (by simp [ovStepSpec])
  · intro hg hmem
    rw [heq] at hmem
    unfold selectImageChainSpec at hmem
    by_cases hb : jvTruthy (bestImageUrlFromRow row) = true
    · simp [hb] at hmem
    · simp only [Bool.not_eq_true] at hb
      simp only [hb, Bool.false_eq_true, if_false] at hmem
      rcases runChain_trace_gate _ _ hmem with ⟨st, hstmem, hgate, htag⟩
      simp only [List.mem_cons, List.mem_singleton, List.not_mem_nil, or_false] at hstmem
      rcases hstmem with rfl | rfl | rfl
      · exact absurd htag (by simp [oaStepSpec])
      · rw [show (libStepSpec row env).gate = isBibliotheque row from rfl, hg] at hgate
        exact Bool.false_ne_true hgate
      · exact absurd htag (by simp [ovStepSpec])

/-- C1 witness: a record that already carries an upstream image string
is answered immediately, with no adapter queried, even though the
OpenAgenda oracle would fail. -/
theorem claim_C1_witness :
    pickBestImageForEvent ⟨true, "k", 600, []⟩
        { originagenda_uid := some "123",
          location_image := ImageField.str "http://x" }
        ⟨Except.error (), Except.ok none, Except.ok []⟩ =
      (Except.ok (some (upstreamCandidate (bestImageUrlFromRow
        { originagenda_uid := some "123",
          location_image := ImageField.str "http://x" }))), []) :=
  (claim_C1_selectImage ⟨true, "k", 600, []⟩
    { originagenda_uid := some "123",
      location_image := ImageField.str "http://x" }
    ⟨Except.error (), Except.ok none, Except.ok []⟩).2.1 (by decide)

/-! ## C3: error handling in the Selection Policy -/

theorem libThenOv_not_error (cfg : Config) (row : Row) (evTokens : List String)
    (env : EnvV2) : (libThenOv cfg row evTokens env).1 ≠ Except.error () := by
  unfold libThenOv
  by_cases hb : isBibliotheque row = true
  · cases hl : libPhase env.libResult <;> simp [hb, hl]
  · simp only [Bool.not_eq_true] at hb
    simp [hb]

/-- C3 (amended): the Selection Policy catches thrown failures of the
venue scraper and of the Openverse search (they are treated as "no
candidate from this source"), but a thrown OpenAgenda fetch/parse
failure is NOT caught: `pickBestImageForEvent` propagates a failure
exactly when the record carries no upstream image, the OpenAgenda
branch is enabled and gated in, and that fetch throws. -/
theorem claim_C3_error_handling (cfg : Config) (row : Row) (env : EnvV2) :
    ((pickBestImageForEvent cfg row env).1 = Except.error ()) ↔
      (jvTruthy (bestImageUrlFromRow row) = false ∧ oaGate cfg row = true ∧
        env.oaEvent = Except.error ()) := by
  unfold pickBestImageForEvent
  by_cases hb : jvTruthy (bestImageUrlFromRow row) = true
  · simp [hb]
  · simp only [Bool.not_eq_true] at hb
    simp only [hb, Bool.false_eq_true, if_false, true_and]
    by_cases hg : oaGate cfg row = true
    · simp only [hg, if_true, true_and]
      have hne := libThenOv_not_error cfg row (tokens (buildSearchQuery row)) env
      cases hoa : env.oaEvent with
      | error e => simp
      | ok oaOpt =>
        cases oaOpt with
        | none => simpa using hne
        | some evt =>
          cases himg : pickOAImage evt with
          | none => simpa [himg] using hne
          | some img =>
            by_cases hurl : img.url = ""
            · simpa [himg, hurl] using hne
            · simp [himg, hurl]
    · simp only [Bool.not_eq_true] at hg
      simp only [hg, Bool.false_eq_true, if_false, false_and, iff_false]
      exact libThenOv_not_error cfg row (tokens (buildSearchQuery row)) env

/-- C3 counterexample: with official images enabled, a configured key,
a record carrying an upstream agenda id and no upstream image, a thrown
OpenAgenda fetch failure propagates out of the Selection Policy as a
fatal per-event error (the claim said such failures are always caught). -/
theorem claim_C3_counterexample :
    (pickBestImageForEvent ⟨true, "k", 600, []⟩ { originagenda_uid := some "123" }
        ⟨Except.error (), Except.ok none, Except.ok []⟩).1 = Except.error () := by
  rfl

/-- C3 witness: when the OpenAgenda branch is disabled, even an
environment in which every network interaction throws cannot make the
Selection Policy propagate an error. -/
theorem claim_C3_witness :
    (pickBestImageForEvent ⟨false, "", 600, []⟩ {}
        ⟨Except.error (), Except.error (), Except.error ()⟩).1 ≠ Except.error () :=
  fun h =>
    absurd ((claim_C3_error_handling ⟨false, "", 600, []⟩ {}
      ⟨Except.error (), Except.error (), Except.error ()⟩).mp h).2.1 (by decide)

/-! ## C2: acceptance rule of the search-based sources -/

theorem argmaxFirst_cons_isSome {α : Type} (score : α → Nat) (x : α) (xs : List α) :
    ∃ b, argmaxFirst score (x :: xs) = some b := by
  unfold argmaxFirst
  cases h : argmaxFirst score xs with
  | none => exact ⟨x, rfl⟩
  | some y =>
    by_cases hgt : score y > score x
    · exact ⟨y, by simp [hgt]⟩
    · exact ⟨x, by simp [hgt]⟩

/-- The specification's acceptance rule for a search-based candidate:
url non-empty AND (declared width unknown OR width at least the
configured minimum). -/
def specAccepts (minWidth : Nat) (c : Candidate) : Prop :=
  jvTruthy c.url = true ∧ (c.width = none ∨ minWidth ≤ c.width.getD 0)

instance (minWidth : Nat) (c : Candidate) : Decidable (specAccepts minWidth c) := by
  unfold specAccepts
  infer_instance

theorem openverseStep_cons (minWidth : Nat) (preferred evTokens : List String)
    (r : OVResult) (rs : List OVResult) (best : OVResult)
    (hbest : argmaxFirst (scoreOpenverseResult minWidth preferred evTokens) (r :: rs) =
      some best) :
    openverseStep minWidth preferred evTokens (r :: rs) =
      if jvTruthy (toMappingFromOpenverse best).url = true ∧
          (best.width.getD 0 ≥ minWidth ∨ best.width.getD 0 = 0) then
        some (toMappingFromOpenverse best)
      else none := by
  unfold openverseStep
  rw [hbest]

theorem commonsStep_cons (minWidth : Nat) (evTokens : List String)
    (p : CommonsPage) (ps : List CommonsPage) (bp : CommonsPage)
    (hbp : argmaxFirst (scoreCommonsPage minWidth evTokens) (p :: ps) = some bp) :
    commonsStep minWidth evTokens (p :: ps) =
      if jvTruthy (toMappingFromCommons bp).url = true then
        some (toMappingFromCommons bp)
      else none := by
  unfold commonsStep
  rw [hbp]

theorem widthCond_iff (minWidth : Nat) (w : Option Nat) :
    (w.getD 0 ≥ minWidth ∨ w.getD 0 = 0) ↔
      (numOrNull w = none ∨ minWidth ≤ (numOrNull w).getD 0) := by
  cases w with
  | none => simp [numOrNull]
  | some n =>
    by_cases h0 : n = 0
    · simp [numOrNull, h0]
    · simp only [numOrNull, h0, if_false, Option.getD_some, ge_iff_le,
        reduceCtorEq, or_false, false_or]

/-- C2 (amended): for a non-empty result list, both search-based
sources take the maximum-scoring result; OpenMediaSearch accepts its
mapping iff its url is non-empty and its declared width is unknown or
at least the configured minimum, while EncyclopediaMediaSearch accepts
its mapping iff its url is non-empty, with NO width condition (a known
width below the minimum is still accepted there). -/
theorem claim_C2_acceptance (minWidth : Nat) (preferred evTokens : List String)
    (results : List OVResult) (pages : List CommonsPage) :
    (results ≠ [] →
      ∃ best,
        argmaxFirst (scoreOpenverseResult minWidth preferred evTokens) results =
            some best ∧
          ((openverseStep minWidth preferred evTokens results).isSome = true ↔
            specAccepts minWidth (toMappingFromOpenverse best)) ∧
          ∀ c, openverseStep minWidth preferred evTokens results = some c →
            c = toMappingFromOpenverse best) ∧
    (pages ≠ [] →
      ∃ bp,
        argmaxFirst (scoreCommonsPage minWidth evTokens) pages = some bp ∧
          ((commonsStep minWidth evTokens pages).isSome = true ↔
            jvTruthy (toMappingFromCommons bp).url = true) ∧
          ∀ c, commonsStep minWidth evTokens pages = some c →
            c = toMappingFromCommons bp) := by
  constructor
  · intro hne
    cases results with
    | nil => exact absurd rfl hne
    | cons r rs =>
      obtain ⟨best, hbest⟩ :=
        argmaxFirst_cons_isSome (scoreOpenverseResult minWidth preferred evTokens) r rs
      have hspec : (jvTruthy (toMappingFromOpenverse best).url = true ∧
          (best.width.getD 0 ≥ minWidth ∨ best.width.getD 0 = 0)) ↔
          specAccepts minWidth (toMappingFromOpenverse best) := by
        unfold specAccepts
        constructor
        · rintro ⟨h1, h2⟩
          exact ⟨h1, (widthCond_iff minWidth best.width).mp h2⟩
        · rintro ⟨h1, h2⟩
          exact ⟨h1, (widthCond_iff minWidth best.width).mpr h2⟩
      rw [openverseStep_cons minWidth preferred evTokens r rs best hbest]
      refine ⟨best, hbest, ?_, ?_⟩
      · by_cases hacc : jvTruthy (toMappingFromOpenverse best).url = true ∧
            (best.width.getD 0 ≥ minWidth ∨ best.width.getD 0 = 0)
        · rw [if_pos hacc]
          exact iff_of_true rfl (hspec.mp hacc)
        · rw [if_neg hacc]
          exact iff_of_false (by simp) fun hs => hacc (hspec.mpr hs)
      · intro c hc
        by_cases hacc : jvTruthy (toMappingFromOpenverse best).url = true ∧
            (best.width.getD 0 ≥ minWidth ∨ best.width.getD 0 = 0)
        · rw [if_pos hacc] at hc
          exact (Option.some_inj.mp hc).symm
        · rw [if_neg hacc] at hc
          exact absurd hc (by simp)
  · intro hne
    cases pages with
    | nil => exact absurd rfl hne
    | cons p ps =>
      obtain ⟨bp, hbp⟩ := argmaxFirst_cons_isSome (scoreCommonsPage minWidth evTokens) p ps
      rw [commonsStep_cons minWidth evTokens p ps bp hbp]
      refine ⟨bp, hbp, ?_, ?_⟩
      · by_cases hacc : jvTruthy (toMappingFromCommons bp).url = true
        · rw [if_pos hacc]
          exact iff_of_true rfl hacc
        · rw [if_neg hacc]
          exact iff_of_false (by simp) hacc
      · intro c hc
        by_cases hacc : jvTruthy (toMappingFromCommons bp).url = true
        · rw [if_pos hacc] at hc
          exact (Option.some_inj.mp hc).symm
        · rw [if_neg hacc] at hc
          exact absurd hc (by simp)

/-- A Commons page whose single imageinfo entry declares a width of 400
pixels and a non-empty url. -/
def pg400 : CommonsPage :=
  { imageinfo := some [{ url := some "http://img", width := some 400 }] }

/-- C2 counterexample: the first-generation Commons fallback accepts
its maximum-scoring candidate although the candidate's declared width
(400) is known and below the configured minimum (600) — the claimed
acceptance rule rejects exactly this candidate. -/
theorem claim_C2_counterexample :
    commonsStep 600 [] [pg400] = some (toMappingFromCommons pg400) ∧
      (toMappingFromCommons pg400).width = some 400 ∧
      ¬ specAccepts 600 (toMappingFromCommons pg400) := by
  refine ⟨by decide, by decide, ?_⟩
  intro hs
  exact absurd hs (by decide)

/-- An Openverse result with a non-empty url and no declared width. -/
def ovW : OVResult := { url := some "http://x" }

/-- C2 witness: concrete application of the amended theorem to a
one-element Openverse result list. -/
theorem claim_C2_witness :
    ∃ best,
      argmaxFirst (scoreOpenverseResult 600 [] []) [ovW] = some best ∧
        ((openverseStep 600 [] [] [ovW]).isSome = true ↔
          specAccepts 600 (toMappingFromOpenverse best)) ∧
        ∀ c, openverseStep 600 [] [] [ovW] = some c →
          c = toMappingFromOpenverse best :=
  (claim_C2_acceptance 600 [] [] [ovW] []).1 (by decide)

/-! ## Cache Merge and the per-event task (`main`, second generation) -/

/-- A persisted cache entry: the selected candidate's spread fields plus
the query trace and the update timestamp. -/
structure Entry where
  pick : Candidate
  q : String
  updated_at : String
  deriving DecidableEq, Repr

/-- The persisted store, as an association list with JS-object lookup
semantics (first binding of a key wins; insertion replaces the first
binding or appends). -/
abbrev Store := List (String × Entry)

def lookupStore : Store → String → Option Entry
  | [], _ => none
  | (k2, e) :: rest, k => if k2 = k then some e else lookupStore rest k

def setStore : Store → String → Entry → Store
  | [], k, e => [(k, e)]
  | (k2, e2) :: rest, k, e =>
    if k2 = k then (k, e) :: rest else (k2, e2) :: setStore rest k e

/-- Truthiness of `existing[k]?.url`. -/
def entryUrlTruthy (store : Store) (k : String) : Bool :=
  match lookupStore store k with
  | some e => jvTruthy e.pick.url
  | none => false

theorem lookup_set_self (s : Store) (k : String) (e : Entry) :
    lookupStore (setStore s k e) k = some e := by
  induction s with
  | nil => simp [setStore, lookupStore]
  | cons p rest ih =>
    obtain ⟨k2, e2⟩ := p
    by_cases h : k2 = k
    · simp [setStore, lookupStore, h]
    · simp [setStore, lookupStore, h, ih]

theorem lookup_set_other (s : Store) (k k2 : String) (e : Entry) (h : k2 ≠ k) :
    lookupStore (setStore s k e) k2 = lookupStore s k2 := by
  have h2 : ¬k = k2 := fun hh => h hh.symm
  induction s with
  | nil => simp [setStore, lookupStore, h2]
  | cons p rest ih =>
    obtain ⟨k3, e3⟩ := p
    by_cases h3 : k3 = k
    · subst h3
      simp [setStore, lookupStore, h2]
    · simp [setStore, lookupStore, h3, ih]

theorem set_same (s : Store) (k : String) (e : Entry)
    (h : lookupStore s k = some e) : setStore s k e = s := by
  induction s with
  | nil => simp [lookupStore] at h
  | cons p rest ih =>
    obtain ⟨k2, e2⟩ := p
    by_cases h2 : k2 = k
    · subst h2
      simp only [lookupStore, if_true] at h
      simp only [eq_self_iff_true, if_true, Option.some_inj] at h
      simp [setStore, h]
    · simp only [lookupStore, if_neg h2] at h
      simp [setStore, h2, ih h]

/-- The slug-alias write of the merge:
`if (slug && !existing[slug]) existing[slug] = entry`. -/
def slugPhase (s1 : Store) (slug : String) (entry : Entry) : Store :=
  if slug ≠ "" ∧ (lookupStore s1 slug).isNone = true then setStore s1 slug entry else s1

/-- Embedding of the Cache Merge write policy of `main` (both script
generations): skip when the uid is truthy and already bound to an entry
with a truthy url; otherwise write under the uid (when truthy), then
alias the slug only when the slug is truthy and not yet bound. -/
def mergeEntry (store : Store) (id slug : String) (entry : Entry) : Store :=
  if id ≠ "" ∧ entryUrlTruthy store id = true then store
  else slugPhase (if id ≠ "" then setStore store id entry else store) slug entry

theorem slugPhase_frame (s1 : Store) (slug : String) (entry : Entry) (k : String)
    (hk : k ≠ slug) :
    lookupStore (slugPhase s1 slug entry) k = lookupStore s1 k := by
  unfold slugPhase
  by_cases hc : slug ≠ "" ∧ (lookupStore s1 slug).isNone = true
  · rw [if_pos hc, lookup_set_other s1 slug k entry hk]
  · rw [if_neg hc]

theorem slugPhase_lookup_isSome (s1 : Store) (slug : String) (entry : Entry)
    (k : String) (h : (lookupStore s1 k).isSome = true) :
    lookupStore (slugPhase s1 slug entry) k = lookupStore s1 k := by
  by_cases hk : k = slug
  · have hsome2 : (lookupStore s1 slug).isSome = true := by
      rw [← hk]
      exact h
    have hq : ¬(slug ≠ "" ∧ (lookupStore s1 slug).isNone = true) := by
      rintro ⟨-, hnone⟩
      rw [Option.isNone_iff_eq_none.mp hnone] at hsome2
      simp at hsome2
    unfold slugPhase
    rw [if_neg hq]
  · exact slugPhase_frame s1 slug entry k hk

theorem slugPhase_idem (s1 : Store) (slug : String) (entry : Entry) :
    slugPhase (slugPhase s1 slug entry) slug entry = slugPhase s1 slug entry := by
  by_cases hc : slug ≠ "" ∧ (lookupStore s1 slug).isNone = true
  · have hw : slugPhase s1 slug entry = setStore s1 slug entry := if_pos hc
    rw [hw]
    unfold slugPhase
    rw [if_neg]
    rintro ⟨-, hnone⟩
    rw [lookup_set_self] at hnone
    simp at hnone
  · have hw : slugPhase s1 slug entry = s1 := if_neg hc
    rw [hw]
    exact if_neg hc

/-- C4 counterexample: the skip guard of the merge requires a *truthy*
uid, so with the empty-string id the store is NOT left unchanged even
though `store[""]` already holds an entry with a non-empty url — the
slug alias is still written. -/
theorem claim_C4_counterexample :
    entryUrlTruthy [("", ⟨⟨JVal.str "http://u", "p", "", "", "", "", "", none, none⟩,
        "q", "t"⟩)] "" = true ∧
      mergeEntry [("", ⟨⟨JVal.str "http://u", "p", "", "", "", "", "", none, none⟩,
          "q", "t"⟩)] "" "abc"
          ⟨⟨JVal.str "http://v", "p2", "", "", "", "", "", none, none⟩, "q2", "t2"⟩ ≠
        [("", ⟨⟨JVal.str "http://u", "p", "", "", "", "", "", none, none⟩, "q", "t"⟩)] := by
  decide

/-- C4 (amended): for a NON-EMPTY id, a prior entry with a non-empty
url under that id makes the merge a no-op (even for a different entry);
when not skipped, a non-empty id is (re)bound to the entry, a fresh
non-empty slug is aliased to it, an existing slug binding is never
overwritten, and no other key changes; for the empty id only the slug
rule applies.  In every case the merge is idempotent: merging the same
id/slug/entry twice equals merging it once. -/
theorem claim_C4_mergeEntry (store : Store) (id slug : String) (entry : Entry) :
    (id ≠ "" → entryUrlTruthy store id = true →
      mergeEntry store id slug entry = store) ∧
    (¬(id ≠ "" ∧ entryUrlTruthy store id = true) →
      (id ≠ "" → lookupStore (mergeEntry store id slug entry) id = some entry) ∧
      (slug ≠ "" → slug ≠ id → lookupStore store slug = none →
        lookupStore (mergeEntry store id slug entry) slug = some entry)) ∧
    (∀ e0, slug ≠ id → lookupStore store slug = some e0 →
      lookupStore (mergeEntry store id slug entry) slug = some e0) ∧
    (∀ k, k ≠ id → k ≠ slug →
      lookupStore (mergeEntry store id slug entry) k = lookupStore store k) ∧
    mergeEntry (mergeEntry store id slug entry) id slug entry =
      mergeEntry store id slug entry := by
  refine ⟨?_, ?_, ?_, ?_, ?_⟩
  · intro h1 h2
    unfold mergeEntry
    rw [if_pos ⟨h1, h2⟩]
  · intro hng
    unfold mergeEntry
    rw [if_neg hng]
    constructor
    · intro hid
      rw [if_pos hid]
      have hsome : (lookupStore (setStore store id entry) id).isSome = true := by
        rw [lookup_set_self]
        rfl
      rw [slugPhase_lookup_isSome _ slug entry id hsome, lookup_set_self]
    · intro hslug hsi hnone
      have h1 : lookupStore (if id ≠ "" then setStore store id entry else store) slug =
          none := by
        by_cases hid : id ≠ ""
        · rw [if_pos hid, lookup_set_other store id slug entry hsi, hnone]
        · rw [if_neg hid, hnone]
      unfold slugPhase
      rw [if_pos ⟨hslug, by rw [h1]; rfl⟩, lookup_set_self]
  · intro e0 hsi hsome
    unfold mergeEntry
    by_cases hg : id ≠ "" ∧ entryUrlTruthy store id = true
    · rw [if_pos hg, hsome]
    · rw [if_neg hg]
      have h1 : lookupStore (if id ≠ "" then setStore store id entry else store) slug =
          some e0 := by
        by_cases hid : id ≠ ""
        · rw [if_pos hid, lookup_set_other store id slug entry hsi, hsome]
        · rw [if_neg hid, hsome]
      rw [slugPhase_lookup_isSome _ slug entry slug (by rw [h1]; rfl), h1]
  · intro k hkid hkslug
    unfold mergeEntry
    by_cases hg : id ≠ "" ∧ entryUrlTruthy store id = true
    · rw [if_pos hg]
    · rw [if_neg hg, slugPhase_frame _ slug entry k hkslug]
      by_cases hid : id ≠ ""
      · rw [if_pos hid, lookup_set_other store id k entry hkid]
      · rw [if_neg hid]
  · by_cases hg : id ≠ "" ∧ entryUrlTruthy store id = true
    · unfold mergeEntry
      rw [if_pos hg, if_pos hg]
    · have hm : mergeEntry store id slug entry =
          slugPhase (if id ≠ "" then setStore store id entry else store) slug entry := by
        unfold mergeEntry
        rw [if_neg hg]
      generalize hM : mergeEntry store id slug entry = m1 at hm
      by_cases hid : id ≠ ""
      · have hlook : lookupStore m1 id = some entry := by
          rw [hm, if_pos hid]
          have hsome : (lookupStore (setStore store id entry) id).isSome = true := by
            rw [lookup_set_self]
            rfl
          rw [slugPhase_lookup_isSome _ slug entry id hsome, lookup_set_self]
        by_cases hu : jvTruthy entry.pick.url = true
        · have het : entryUrlTruthy m1 id = true := by
            unfold entryUrlTruthy
            rw [hlook]
            exact hu
          unfold mergeEntry
          rw [if_pos ⟨hid, het⟩]
        · have hng2 : ¬(id ≠ "" ∧ entryUrlTruthy m1 id = true) := by
            rintro ⟨-, htr⟩
            unfold entryUrlTruthy at htr
            rw [hlook] at htr
            exact hu htr
          unfold mergeEntry
          rw [if_neg hng2, if_pos hid, set_same m1 id entry hlook, hm]
          exact slugPhase_idem _ slug entry
      · have hng2 : ¬(id ≠ "" ∧ entryUrlTruthy m1 id = true) := by
          rintro ⟨hid2, -⟩
          exact hid hid2
        unfold mergeEntry
        rw [if_neg hng2, if_neg hid, hm]
        exact slugPhase_idem _ slug entry

/-- C4 witness: the no-overwrite clause applied to a concrete store
whose (non-empty) id already holds a verified entry. -/
theorem claim_C4_witness :
    mergeEntry [("e1", ⟨⟨JVal.str "http://u", "p", "", "", "", "", "", none, none⟩,
        "q", "t"⟩)] "e1" "s"
        ⟨⟨JVal.str "http://v", "p2", "", "", "", "", "", none, none⟩, "q2", "t2"⟩ =
      [("e1", ⟨⟨JVal.str "http://u", "p", "", "", "", "", "", none, none⟩, "q", "t"⟩)] :=
  (claim_C4_mergeEntry _ "e1" "s" _).1 (by decide) (by decide)

/-- Embedding of the per-event task body of `main` (second generation):
trim the ids, return at once when both are empty, skip rows whose uid
already has a verified entry, otherwise run the Selection Policy and —
only for a picked candidate with a truthy url — write the entry under
the uid and alias the fresh slug.  The trace lists the sources queried
for this row; an uncaught Selection Policy failure rejects the task. -/
def processRow (cfg : Config) (store : Store) (row : Row) (env : EnvV2)
    (now : String) : Except Unit (Store × List Source) :=
  let uid := jsTrim (jsStr row.uid)
  let slug := jsTrim (jsStr row.slug)
  if uid = "" ∧ slug = "" then Except.ok (store, [])
  else if uid ≠ "" ∧ entryUrlTruthy store uid = true then Except.ok (store, [])
  else
    match pickBestImageForEvent cfg row env with
    | (Except.error _, _) => Except.error ()
    | (Except.ok picked, tr) =>
      match picked with
      | some c =>
        if jvTruthy c.url = true then
          let entry : Entry := ⟨c, buildSearchQuery row, now⟩
          Except.ok
            (slugPhase (if uid ≠ "" then setStore store uid entry else store) slug entry,
              tr)
        else Except.ok (store, tr)
      | none => Except.ok (store, tr)

/-- C10: when both the trimmed uid and the trimmed slug are empty, the
per-event task returns before the Selection Policy runs: no source is
queried (empty trace), no failure can escape, and the store is returned
exactly unchanged. -/
theorem claim_C10_empty_ids (cfg : Config) (store : Store) (row : Row) (env : EnvV2)
    (now : String) (hu : jsTrim (jsStr row.uid) = "")
    (hs : jsTrim (jsStr row.slug) = "") :
    processRow cfg store row env now = Except.ok (store, []) := by
  unfold processRow
  simp [hu, hs]

/-- C10 witness: a row with neither uid nor slug leaves a concrete
store untouched, even under an environment whose every fetch throws. -/
theorem claim_C10_witness :
    processRow ⟨true, "k", 600, []⟩
        [("e1", ⟨⟨JVal.str "http://u", "p", "", "", "", "", "", none, none⟩, "q", "t"⟩)]
        { uid := some " ", slug := none }
        ⟨Except.error (), Except.error (), Except.error ()⟩ "now" =
      Except.ok
        ([("e1", ⟨⟨JVal.str "http://u", "p", "", "", "", "", "", none, none⟩, "q", "t"⟩)],
          []) :=
  claim_C10_empty_ids _ _ _ _ _ (by decide) (by decide)

/-! ## Concurrency Limiter (`createLimiter`) -/

/-- State of the limiter: the `active` counter and the FIFO `queue` of
the JS closure, together with the observable ghost lists of task ids
currently running, started so far (in start order), settled so far, and
submitted so far (in submission order). -/
structure LState where
  max : Nat
  active : Nat
  queue : List Nat
  running : List Nat
  started : List Nat
  completed : List Nat
  submitted : List Nat
  deriving DecidableEq, Repr

def LState.init (max : Nat) : LState :=
  ⟨max, 0, [], [], [], [], []⟩

/-- The `next()` closure: return immediately when
`active >= max || queue.length === 0`, otherwise shift the queue head,
increment `active` and invoke its function. -/
def nextStep (s : LState) : LState :=
  match s.queue with
  | [] => s
  | t :: rest =>
    if s.active < s.max then
      { s with
          active := s.active + 1
          queue := rest
          running := s.running ++ [t]
          started := s.started ++ [t] }
    else s

/-- Submission (`limiter(fn)`): push onto the queue, then `next()` runs
synchronously inside the promise executor. -/
def submitTask (s : LState) (t : Nat) : LState :=
  nextStep { s with queue := s.queue ++ [t], submitted := s.submitted ++ [t] }

/-- Settlement of a running task (the `.finally` handler, identical for
resolution and rejection): decrement `active`, then run `next()`. -/
def settleTask (s : LState) (t : Nat) (_ok : Bool) : LState :=
  nextStep
    { s with
        active := s.active - 1
        running := s.running.erase t
        completed := s.completed ++ [t] }

/-- An observable event of the limiter. -/
inductive LStep : LState → LState → Prop where
  | submit (t : Nat) (s : LState) : LStep s (submitTask s t)
  | settle (t : Nat) (ok : Bool) (s : LState) (h : t ∈ s.running) :
      LStep s (settleTask s t ok)

/-- States reachable from a fresh `createLimiter(max)`. -/
inductive LReach (max : Nat) : LState → Prop where
  | init : LReach max (LState.init max)
  | step {s s2 : LState} : LReach max s → LStep s s2 → LReach max s2

/-- The inductive invariant of the limiter. -/
def LimiterInv (s : LState) : Prop :=
  s.active = s.running.length ∧
  s.active ≤ s.max ∧
  s.started ++ s.queue = s.submitted ∧
  (s.completed ++ s.running).Perm s.started ∧
  (s.queue ≠ [] → s.active = s.max)


theorem nextStep_nil (s : LState) (hq : s.queue = []) : nextStep s = s := by
  unfold nextStep
  simp [hq]

theorem nextStep_cons_lt (s : LState) (a : Nat) (r : List Nat) (hq : s.queue = a :: r)
    (hlt : s.active < s.max) :
    nextStep s =
      { s with
          active := s.active + 1
          queue := r
          running := s.running ++ [a]
          started := s.started ++ [a] } := by
  unfold nextStep
  simp [hq, hlt]

theorem nextStep_cons_ge (s : LState) (a : Nat) (r : List Nat) (hq : s.queue = a :: r)
    (hge : ¬s.active < s.max) : nextStep s = s := by
  unfold nextStep
  simp [hq, hge]

theorem submitTask_nil_lt (s : LState) (t : Nat) (hq : s.queue = [])
    (hlt : s.active < s.max) :
    submitTask s t =
      { s with
          active := s.active + 1
          running := s.running ++ [t]
          started := s.started ++ [t]
          submitted := s.submitted ++ [t] } := by
  unfold submitTask nextStep
  simp [hq, hlt]

theorem submitTask_nil_ge (s : LState) (t : Nat) (hq : s.queue = [])
    (hge : ¬s.active < s.max) :
    submitTask s t =
      { s with
          queue := [t]
          submitted := s.submitted ++ [t] } := by
  unfold submitTask nextStep
  simp [hq, hge]

theorem submitTask_cons (s : LState) (t a : Nat) (q2 : List Nat)
    (hq : s.queue = a :: q2) (hge : ¬s.active < s.max) :
    submitTask s t =
      { s with
          queue := a :: (q2 ++ [t])
          submitted := s.submitted ++ [t] } := by
  unfold submitTask nextStep
  simp [hq, hge]

theorem settleTask_queue_nil (s : LState) (t : Nat) (ok : Bool) (hq : s.queue = []) :
    settleTask s t ok =
      { s with
          active := s.active - 1
          running := s.running.erase t
          completed := s.completed ++ [t] } := by
  unfold settleTask nextStep
  simp [hq]

theorem settleTask_queue_cons (s : LState) (t : Nat) (ok : Bool) (a : Nat)
    (q2 : List Nat) (hq : s.queue = a :: q2) (hlt : s.active - 1 < s.max) :
    settleTask s t ok =
      { s with
          active := s.active - 1 + 1
          queue := q2
          running := s.running.erase t ++ [a]
          started := s.started ++ [a]
          completed := s.completed ++ [t] } := by
  unfold settleTask nextStep
  simp [hq, hlt]

theorem inv_submit (s : LState) (t : Nat) (h : LimiterInv s) :
    LimiterInv (submitTask s t) := by
  obtain ⟨h1, h2, h3, h4, h5⟩ := h
  cases hq : s.queue with
  | nil =>
    have hse : s.started = s.submitted := by simpa [hq] using h3
    by_cases hlt : s.active < s.max
    · rw [submitTask_nil_lt s t hq hlt]
      refine ⟨?_, ?_, ?_, ?_, ?_⟩
      · simp [h1]
      · simpa using Nat.succ_le_of_lt hlt
      · simp [hq, hse]
      · simp only [← List.append_assoc]
        exact h4.append_right [t]
      · intro hq2
        simp [hq] at hq2
    · rw [submitTask_nil_ge s t hq hlt]
      have heq : s.active = s.max := Nat.le_antisymm h2 (Nat.le_of_not_lt hlt)
      refine ⟨h1, h2, ?_, h4, fun _ => heq⟩
      simp [hq, hse]
  | cons a q2 =>
    have hact : s.active = s.max := h5 (by simp [hq])
    have hnlt : ¬s.active < s.max := by omega
    rw [submitTask_cons s t a q2 hq hnlt]
    refine ⟨h1, h2, ?_, h4, fun _ => hact⟩
    rw [hq] at h3
    have := congrArg (fun l => l ++ [t]) h3
    simp only at this
    rw [← this]
    simp

theorem inv_settle (s : LState) (t : Nat) (ok : Bool) (hmem : t ∈ s.running)
    (h : LimiterInv s) : LimiterInv (settleTask s t ok) := by
  obtain ⟨h1, h2, h3, h4, h5⟩ := h
  have hpos : 0 < s.active := by
    rw [h1]
    exact List.length_pos_of_mem hmem
  have hlenE : (s.running.erase t).length = s.running.length - 1 :=
    List.length_erase_of_mem hmem
  have hpermE : s.running.Perm (t :: s.running.erase t) := List.perm_cons_erase hmem
  have hnewperm : ((s.completed ++ [t]) ++ s.running.erase t).Perm s.started := by
    have hstep1 : ((s.completed ++ [t]) ++ s.running.erase t).Perm
        (s.completed ++ s.running) := by
      rw [List.append_assoc]
      exact (List.Perm.append_left s.completed hpermE).symm
    exact hstep1.trans h4
  cases hq : s.queue with
  | nil =>
    rw [settleTask_queue_nil s t ok hq]
    refine ⟨?_, ?_, ?_, hnewperm, ?_⟩
    · simp [h1, hlenE]
    · simpa using Nat.le_trans (Nat.sub_le _ _) h2
    · simpa [hq] using h3
    · intro hq2
      simp [hq] at hq2
  | cons a q2 =>
    have hact : s.active = s.max := h5 (by simp [hq])
    have hlt : s.active - 1 < s.max := by omega
    rw [settleTask_queue_cons s t ok a q2 hq hlt]
    refine ⟨?_, ?_, ?_, ?_, ?_⟩
    · simp only [List.length_append, hlenE, List.length_singleton]
      simp only [h1]
    · simpa using by omega
    · rw [hq] at h3
      simp only [List.append_assoc]
      simpa using h3
    · simp only [← List.append_assoc]
      exact hnewperm.append_right [a]
    · intro hq2
      simpa using by omega

theorem submitTask_max (s : LState) (t : Nat) : (submitTask s t).max = s.max := by
  unfold submitTask
  cases hq : s.queue ++ [t] with
  | nil => simp [nextStep_nil _ (by simpa using hq)]
  | cons a r =>
    by_cases hlt : s.active < s.max
    · rw [nextStep_cons_lt _ a r (by simpa using hq) (by simpa using hlt)]
    · rw [nextStep_cons_ge _ a r (by simpa using hq) (by simpa using hlt)]

theorem settleTask_max (s : LState) (t : Nat) (ok : Bool) :
    (settleTask s t ok).max = s.max := by
  unfold settleTask
  cases hq : s.queue with
  | nil => rw [nextStep_nil _ (by simpa using hq)]
  | cons a r =>
    by_cases hlt : s.active - 1 < s.max
    · rw [nextStep_cons_lt _ a r (by simpa using hq) (by simpa using hlt)]
    · rw [nextStep_cons_ge _ a r (by simpa using hq) (by simpa using hlt)]

theorem limiter_max {m : Nat} {s : LState} (h : LReach m s) : s.max = m := by
  induction h with
  | init => rfl
  | step ha hstep ih =>
    cases hstep with
    | submit t s0 => rw [submitTask_max]; exact ih
    | settle t ok s0 hmem => rw [settleTask_max]; exact ih

theorem limiter_inv {m : Nat} {s : LState} (h : LReach m s) : LimiterInv s := by
  induction h with
  | init => exact ⟨rfl, Nat.zero_le _, rfl, List.Perm.refl _, fun hq => absurd rfl hq⟩
  | step ha hstep ih =>
    cases hstep with
    | submit t s0 => exact inv_submit _ _ ih
    | settle t ok s0 hmem => exact inv_settle _ _ _ hmem ih

/-- One settle event (of any outcome) of any currently running task. -/
def SettleStarRel (a b : LState) : Prop :=
  ∃ t ok, t ∈ a.running ∧ b = settleTask a t ok

/-- Zero or more settle events. -/
def SettleStar : LState → LState → Prop :=
  Relation.ReflTransGen SettleStarRel

theorem settleTask_submitted (s : LState) (t : Nat) (ok : Bool) :
    (settleTask s t ok).submitted = s.submitted := by
  cases hq : s.queue with
  | nil => rw [settleTask_queue_nil s t ok hq]
  | cons a q2 =>
    by_cases hlt : s.active - 1 < s.max
    · rw [settleTask_queue_cons s t ok a q2 hq hlt]
    · unfold settleTask
      rw [nextStep_cons_ge _ a q2 (by simpa using hq) (by simpa using hlt)]

theorem limiter_drain_aux (n : Nat) :
    ∀ (m : Nat) (s : LState), 1 ≤ m → LReach m s →
      s.queue.length + s.running.length ≤ n →
      ∃ s2, SettleStar s s2 ∧ s2.queue = [] ∧ s2.running = [] ∧
        s2.completed.Perm s.submitted := by
  induction n with
  | zero =>
    intro m s hm hreach hlen
    obtain ⟨h1, h2, h3, h4, h5⟩ := limiter_inv hreach
    have hq : s.queue = [] := by
      cases hqe : s.queue with
      | nil => rfl
      | cons a q2 =>
        rw [hqe] at hlen
        simp at hlen
    have hr : s.running = [] := by
      cases hre : s.running with
      | nil => rfl
      | cons a q2 =>
        rw [hre] at hlen
        simp at hlen
    refine ⟨s, Relation.ReflTransGen.refl, hq, hr, ?_⟩
    have hsub : s.started = s.submitted := by simpa [hq] using h3
    have h4e := h4
    rw [hr, List.append_nil] at h4e
    rw [← hsub]
    exact h4e
  | succ n ih =>
    intro m s hm hreach hlen
    cases hrun : s.running with
    | nil =>
      obtain ⟨h1, h2, h3, h4, h5⟩ := limiter_inv hreach
      have hmax : s.max = m := limiter_max hreach
      have hact : s.active = 0 := by
        rw [h1, hrun]
        rfl
      have hq : s.queue = [] := by
        by_contra hq2
        have := h5 hq2
        omega
      refine ⟨s, Relation.ReflTransGen.refl, hq, hrun, ?_⟩
      have hsub : s.started = s.submitted := by simpa [hq] using h3
      have h4e := h4
      rw [hrun, List.append_nil] at h4e
      rw [← hsub]
      exact h4e
    | cons r rs =>
      have hmem : r ∈ s.running := by
        rw [hrun]
        exact List.mem_cons_self r rs
      obtain ⟨h1, h2, h3, h4, h5⟩ := limiter_inv hreach
      have hpos : 0 < s.active := by
        rw [h1]
        exact List.length_pos_of_mem hmem
      have hreach2 : LReach m (settleTask s r false) :=
        hreach.step (LStep.settle r false s hmem)
      have hlenE : (s.running.erase r).length = s.running.length - 1 :=
        List.length_erase_of_mem hmem
      have hrunpos : 0 < s.running.length := List.length_pos_of_mem hmem
      have hlen2 : (settleTask s r false).queue.length +
          (settleTask s r false).running.length ≤ n := by
        cases hq : s.queue with
        | nil =>
          rw [settleTask_queue_nil s r false hq]
          simp only [hq, List.length_nil, hlenE]
          rw [hq] at hlen
          simp only [List.length_nil, Nat.zero_add] at hlen
          omega
        | cons a q2 =>
          have hact : s.active = s.max := h5 (by simp [hq])
          have hlt : s.active - 1 < s.max := by omega
          rw [settleTask_queue_cons s r false a q2 hq hlt]
          simp only [List.length_append, hlenE, List.length_singleton]
          rw [hq] at hlen
          simp only [List.length_cons] at hlen
          omega
      obtain ⟨s3, hstar, hq3, hr3, hperm3⟩ := ih m (settleTask s r false) hm hreach2 hlen2
      refine ⟨s3, Relation.ReflTransGen.head ⟨r, false, hmem, rfl⟩ hstar, hq3, hr3, ?_⟩
      rw [settleTask_submitted s r false] at hperm3
      exact hperm3

/-- The guarantees the specification states for the limiter, at one
reachable state: `active` counts the running tasks and never exceeds
the bound; tasks start in submission order (started ++ queue =
submitted, first-in-first-out); every settled or running task was
started exactly once (permutation); as soon as any running task
settles — successfully or not — the queue head is started immediately;
settlement is outcome-independent; and (for a positive bound) the
queue drains: a sequence of settle events reaches a state where
everything submitted has completed exactly once. -/
def limiterGuarantees (m : Nat) (s : LState) : Prop :=
  s.active = s.running.length ∧
  s.running.length ≤ m ∧
  s.started ++ s.queue = s.submitted ∧
  (s.completed ++ s.running).Perm s.started ∧
  (∀ t ok a q2, t ∈ s.running → s.queue = a :: q2 →
    (settleTask s t ok).started = s.started ++ [a]) ∧
  (∀ t o1 o2, settleTask s t o1 = settleTask s t o2) ∧
  (1 ≤ m → ∃ s2, SettleStar s s2 ∧ s2.queue = [] ∧ s2.running = [] ∧
    s2.completed.Perm s.submitted)

/-- C5: every reachable state of `createLimiter` satisfies the
specification's guarantees (bounded concurrency, first-in-first-out
starts, exactly-once completion on drain, immediate hand-off on
settlement, and failure treated like success). -/
theorem claim_C5_limiter {m : Nat} {s : LState} (h : LReach m s) :
    limiterGuarantees m s := by
  obtain ⟨h1, h2, h3, h4, h5⟩ := limiter_inv h
  have hmax : s.max = m := limiter_max h
  refine ⟨h1, by omega, h3, h4, ?_, fun t o1 o2 => rfl, ?_⟩
  · intro t ok a q2 hmem hq
    have hact : s.active = s.max := h5 (by simp [hq])
    have hpos : 0 < s.active := by
      rw [h1]
      exact List.length_pos_of_mem hmem
    have hlt : s.active - 1 < s.max := by omega
    rw [settleTask_queue_cons s t ok a q2 hq hlt]
  · intro hm
    exact limiter_drain_aux (s.queue.length + s.running.length) m s hm h le_rfl

/-- The state after submitting five tasks to a limiter of bound 2. -/
def lim5 : LState :=
  submitTask (submitTask (submitTask (submitTask (submitTask (LState.init 2) 0) 1) 2) 3) 4

theorem lim5_reach : LReach 2 lim5 :=
  ((((LReach.init.step (LStep.submit 0 _)).step (LStep.submit 1 _)).step
    (LStep.submit 2 _)).step (LStep.submit 3 _)).step (LStep.submit 4 _)

/-- C5 witness: the guarantees instantiated at the concrete reachable
state with five submissions and bound 2. -/
theorem claim_C5_witness : limiterGuarantees 2 lim5 :=
  claim_C5_limiter lim5_reach

/-- C9: with bound 0 (e.g. `CONCURRENCY=0`), no submitted task is ever
started or settled: every reachable state has empty started, completed
and running lists, and the whole submission backlog sits in the
queue — the queue never drains. -/
theorem claim_C9_zero_bound (s : LState) (h : LReach 0 s) :
    s.started = [] ∧ s.completed = [] ∧ s.running = [] ∧ s.queue = s.submitted := by
  induction h with
  | init => exact ⟨rfl, rfl, rfl, rfl⟩
  | step ha hstep ih =>
    rename_i spre spost
    obtain ⟨hst, hc, hr, hqs⟩ := ih
    cases hstep with
    | submit t =>
      have hmax : spre.max = 0 := limiter_max ha
      have hnlt : ¬spre.active < spre.max := by
        rw [hmax]
        exact Nat.not_lt_zero _
      cases hq : spre.queue with
      | nil =>
        rw [submitTask_nil_ge spre t hq hnlt]
        rw [hq] at hqs
        exact ⟨hst, hc, hr, by simp [← hqs]⟩
      | cons a q2 =>
        rw [submitTask_cons spre t a q2 hq hnlt]
        rw [hq] at hqs
        refine ⟨hst, hc, hr, ?_⟩
        rw [← hqs]
        rfl
    | settle t ok s0 hmem =>
      rw [hr] at hmem
      exact absurd hmem (List.not_mem_nil t)

/-- The state after one submission to a limiter of bound 0. -/
def limZ : LState := submitTask (LState.init 0) 7

theorem limZ_reach : LReach 0 limZ :=
  LReach.init.step (LStep.submit 7 _)

/-- C9 witness: after a concrete submission with bound 0, nothing has
started, nothing has completed, and the submission sits in the queue. -/
theorem claim_C9_witness :
    limZ.started = [] ∧ limZ.completed = [] ∧ limZ.running = [] ∧
      limZ.queue = limZ.submitted :=
  claim_C9_zero_bound limZ limZ_reach
